import Mathlib

set_option linter.dupNamespace false

/-!
# Verification of the coordinate-to-road-reference batch pipeline

A shallow embedding, in Lean 4, of the core components of the
`koordinater-til-vegreferanse` program: the continuity selector
(`VegreferanseSelector`), its scoring function, the selection history, the
worker-pool result aggregation, the rate limiter, and the cached lookup
client.  Pure Go functions become Lean functions; stateful code becomes
explicit state passing; `float64` distances become `ℚ`; `time.Time` and
`time.Duration` (int64 nanoseconds in Go) become `ℤ`; Go `int` becomes
`ℤ` where its sign matters and `ℕ` for list indices that the program
keeps non-negative.  External collaborators (the HTTP fetch, the JSON
payload parser, the float parser) are abstracted as function parameters,
exactly as the program treats them as black boxes behind interfaces.
-/

namespace KoordVegref

/-! ## Data model (`VegreferanseMatch` and its nested structs)

Mirrors the Go structs in the API client.  JSON-only payload fields that no
verified code path reads (`Adskilte_lop`, `Trafikantgruppe`, `Retning`,
`Geometri`, `Veglenkesekvens`) are collapsed away; the fields below are the
ones the pipeline consumes. -/

structure Vegsystem where
  Vegkategori : String
  Fase : String
  Nummer : Int
deriving DecidableEq, Inhabited

structure Strekning where
  Strekning : Int
  Delstrekning : Int
  Arm : Bool
  Meter : ℚ
deriving DecidableEq, Inhabited

structure Vegsystemreferanse where
  Vegsystem : Vegsystem
  Strekning : Strekning
  Kortform : String
deriving DecidableEq, Inhabited

/-- A single road match with associated metadata; `Avstand` is the Go
`float64` distance, modelled exactly as a rational. -/
structure VegreferanseMatch where
  Vegsystemreferanse : Vegsystemreferanse
  Avstand : ℚ
deriving DecidableEq, Inhabited

/-! ## Go string and numeric primitives used by the selector -/

/-- The character class of Go `unicode.IsSpace` restricted to Latin-1,
which is every white-space character Go's `strings.Fields` splits on in
the label strings this program handles. -/
def isGoSpace (c : Char) : Bool :=
  c = ' ' || c = '\t' || c = '\n' || c = '\x0b' || c = '\x0c' || c = '\r' ||
  c.val = 0x85 || c.val = 0xa0

/-- ASCII digit test, the `char >= '0' && char <= '9'` comparison in
`extractCategory`. -/
def isGoDigit (c : Char) : Bool :=
  '0' ≤ c && c ≤ '9'

/-- Worker for `goFields`: splits a character list around runs of white
space, accumulating the current token in reverse. -/
def fieldsAux : List Char → List Char → List String
  | [], acc => if acc.isEmpty then [] else [String.mk acc.reverse]
  | c :: cs, acc =>
    if isGoSpace c then
      if acc.isEmpty then fieldsAux cs []
      else String.mk acc.reverse :: fieldsAux cs []
    else fieldsAux cs (c :: acc)

/-- Go `strings.Fields`: the white-space-separated tokens of a string,
with no empty tokens. -/
def goFields (s : String) : List String :=
  fieldsAux s.toList []

/-- Go `extractCategory`: the maximal leading non-digit segment of a road
identifier (`"E18" → "E"`, `"Kv1000" → "Kv"`); an identifier with no digit
is returned unchanged, and the empty string maps to itself.  The Go loop
returns the byte slice `road[:i]` at the first digit, which for any valid
UTF-8 string is exactly the character-level `takeWhile`. -/
def extractCategory (road : String) : String :=
  String.mk (road.toList.takeWhile (fun c => !isGoDigit c))

/-- Go's conversion `int(x)` from `float64`, i.e. truncation toward zero,
on the exact rational value. -/
def goTrunc (q : ℚ) : Int :=
  Int.tdiv q.num (q.den : Int)

/-! ## VegreferanseSelector -/

/-- The continuity selector: a FIFO history of recently selected labels
(oldest first) and its capacity.  `maxHistory` is a Go `int`. -/
structure VegreferanseSelector where
  history : List String
  maxHistory : Int
deriving DecidableEq, Inhabited

/-- Go `NewVegreferanseSelector`: empty history with the given capacity. -/
def NewVegreferanseSelector (maxHistory : Int) : VegreferanseSelector :=
  { history := [], maxHistory := maxHistory }

/-- Go `AddToHistory`: ignore the empty label, otherwise append and drop
the single oldest entry when the length exceeds `maxHistory`. -/
def AddToHistory (s : VegreferanseSelector) (vegreferanse : String) :
    VegreferanseSelector :=
  if vegreferanse = "" then s
  else
    let h := s.history ++ [vegreferanse]
    if (h.length : Int) > s.maxHistory then { s with history := h.drop 1 }
    else { s with history := h }

/-- Go `calculateMatchScore`: continuity score of a candidate label
against the previous label.  Returns 0 outright when either label has no
token; otherwise +1000 for an identical road identifier, else +100 for an
identical category, plus +50 for identical section tokens when both are
present, minus the Go `int(distance * 10)` truncation. -/
def calculateMatchScore (previous current : String) (distance : ℚ) : Int :=
  let prevParts := goFields previous
  let currParts := goFields current
  if prevParts.length < 1 ∨ currParts.length < 1 then 0
  else
    let prevRoad := prevParts.headD ""
    let currRoad := currParts.headD ""
    let score1 : Int :=
      if prevRoad = currRoad then 1000
      else if extractCategory prevRoad = extractCategory currRoad then 100
      else 0
    let score2 : Int :=
      if 1 < prevParts.length ∧ 1 < currParts.length ∧
          prevParts.getD 1 "" = currParts.getD 1 "" then score1 + 50
      else score1
    score2 - goTrunc (distance * 10)

/-- The scan in Go `SelectBestMatch` over the candidates' scores: carries
the best index (`-1` when nothing has beaten the initial best score `-1`),
the best score, and the index of the current element.  The Go loop also
tracks the closest candidate, which feeds logging only and is omitted. -/
def bestLoop : List Int → Int → Int → Nat → Int × Int
  | [], bestMatch, bestScore, _ => (bestMatch, bestScore)
  | sc :: rest, bestMatch, bestScore, i =>
    if sc > bestScore then bestLoop rest i sc (i + 1)
    else bestLoop rest bestMatch bestScore (i + 1)

/-- Go `SelectBestMatch`: empty candidate list gives the empty label; a
single candidate or an empty history gives the first candidate; otherwise
scan all candidates' scores against the last history entry, return the
candidate at the best index when one beat the initial score `-1`, and fall
back to the first candidate otherwise. -/
def SelectBestMatch (s : VegreferanseSelector)
    (ms : List VegreferanseMatch) : String :=
  match ms with
  | [] => ""
  | m0 :: rest =>
    if rest = [] ∨ s.history = [] then m0.Vegsystemreferanse.Kortform
    else
      let lastVegreferanse := s.history.getLastD ""
      let scores := (m0 :: rest).map fun m =>
        calculateMatchScore lastVegreferanse m.Vegsystemreferanse.Kortform
          m.Avstand
      let bm := (bestLoop scores (-1) (-1) 0).1
      if bm ≥ 0 then
        ((m0 :: rest).getD bm.toNat default).Vegsystemreferanse.Kortform
      else m0.Vegsystemreferanse.Kortform

/-- One selector operation of the sequential selection pass: a direct
`AddToHistory` call, or one record of `applyVegreferanseSelector`, which
(when a record has at least one candidate) selects the best match and
appends the winning label to the history. -/
inductive SelectorOp where
  | add (label : String)
  | select (ms : List VegreferanseMatch)

/-- Executing one selector operation, mirroring `applyVegreferanseSelector`:
records with no candidate leave the selector untouched. -/
def runSelectorOp (s : VegreferanseSelector) : SelectorOp → VegreferanseSelector
  | .add label => AddToHistory s label
  | .select ms =>
    if 0 < ms.length then AddToHistory s (SelectBestMatch s ms) else s

/-! ## Worker pool, result aggregation and output writing -/

/-- Column configuration for coordinate-to-vegreferanse mode; the program
validates both indices as non-negative before processing. -/
structure CoordToVegrefConfig where
  XColumn : Nat
  YColumn : Nat
deriving DecidableEq, Inhabited

/-- Go `processResult`: the outcome of one line's task.  The `Inhabited`
default is Go's zero value, which fills the pre-sized result slice before
collection. -/
structure processResult where
  lineIdx : Nat
  line : String
  vegreferanse : String
  matches' : List VegreferanseMatch
  err : Option String
deriving DecidableEq, Inhabited

/-- Worker for `goSplitTab`: splits at every tab, keeping empty fields. -/
def splitTabAux : List Char → List Char → List String
  | [], acc => [String.mk acc.reverse]
  | c :: cs, acc =>
    if c = '\t' then String.mk acc.reverse :: splitTabAux cs []
    else splitTabAux cs (c :: acc)

/-- Go `strings.Split(line, "\t")`. -/
def goSplitTab (line : String) : List String :=
  splitTabAux line.toList []

/-- The worker body for one task of `processCoordinatesToVegreferanse`:
split the line at tabs, check the column count, parse the X and then the Y
coordinate, query the provider, and record the first match's label (empty
when there is no match).  The float parser (`strconv.ParseFloat`) and the
provider (`GetVegreferanseMatches`) are external collaborators passed as
functions; `Q` is the coordinate scalar type. -/
def processLine {Q : Type} (parseF : String → Option Q)
    (provider : Q → Q → Except String (List VegreferanseMatch))
    (cfg : CoordToVegrefConfig) (lineIdx : Nat) (line : String) :
    processResult :=
  let fields := goSplitTab line
  if fields.length ≤ max cfg.XColumn cfg.YColumn then
    { lineIdx := lineIdx, line := line, vegreferanse := "", matches' := [],
      err := some ("line doesn't have enough columns for coordinates") }
  else
    match parseF (fields.getD cfg.XColumn "") with
    | none =>
      { lineIdx := lineIdx, line := line, vegreferanse := "", matches' := [],
        err := some ("invalid X coordinate") }
    | some x =>
      match parseF (fields.getD cfg.YColumn "") with
      | none =>
        { lineIdx := lineIdx, line := line, vegreferanse := "", matches' := [],
          err := some ("invalid Y coordinate") }
      | some y =>
        match provider x y with
        | .error e =>
          { lineIdx := lineIdx, line := line, vegreferanse := "",
            matches' := [], err := some ("API error: " ++ e) }
        | .ok ms =>
          { lineIdx := lineIdx, line := line,
            vegreferanse :=
              match ms with
              | [] => ""
              | m :: _ => m.Vegsystemreferanse.Kortform,
            matches' := ms, err := none }

/-- The deterministic multiset of task results: the i-th input line
produces exactly `processLine … i line`, whatever worker executes it. -/
def processTargets {Q : Type} (parseF : String → Option Q)
    (provider : Q → Q → Except String (List VegreferanseMatch))
    (cfg : CoordToVegrefConfig) (lines : List String) :
    List processResult :=
  lines.mapIdx fun i line => processLine parseF provider cfg i line

/-- Collection of the result channel into the pre-sized slice:
`results[result.lineIdx] = result` for each arriving result, starting from
a slice of `n` zero values. -/
def collectResults (n : Nat) (arrived : List processResult) :
    List processResult :=
  arrived.foldl (fun acc r => acc.set r.lineIdx r)
    (List.replicate n default)

/-- Go's `sort.Slice(results, lineIdx-less)` after collection. -/
def sortByLineIdx (rs : List processResult) : List processResult :=
  rs.mergeSort fun a b => decide (a.lineIdx ≤ b.lineIdx)

/-- Go `processCoordinatesToVegreferanse`, with the only nondeterminism of
the worker pool — the order in which results arrive on the result
channel — made explicit as the `arrived` list.  A run with `W` workers
produces some permutation `arrived` of the per-line results; the function
then collects by index into the pre-sized slice and sorts by line index. -/
def processCoordinatesToVegreferanse (lines : List String)
    (arrived : List processResult) : List processResult :=
  sortByLineIdx (collectResults lines.length arrived)

/-- Go `writeResults`, restricted to the data lines it writes (the header
line and the returned counters are the caller's concern): lines whose
result carries an error are skipped, every other line is written in slice
order with the resolved value appended after a tab. -/
def writeResults (results : List processResult) : List String :=
  results.filterMap fun r =>
    match r.err with
    | some _ => none
    | none => some (r.line ++ "\t" ++ r.vegreferanse)

/-! ## RateLimiter

`time.Time` and `time.Duration` are int64 nanosecond counts in Go; both
become `ℤ` here.  The mutex is held for the whole of `Wait` (the `defer`
unlocks only on return, so even the sleep happens under the lock), hence
every execution is a serialization of `Wait` calls and is modelled as a
fold over a schedule.  Each schedule entry carries the time `now` read at
entry and the time `wake` at which the sleeping call resumed; the
scheduler facts the runtime guarantees (monotonic clock readings, sleep
waiting at least the requested duration) are captured by
`validSchedule`. -/

structure RateLimiter where
  calls : List Int
  limit : Int
  timeFrame : Int
deriving DecidableEq, Inhabited

/-- Go `NewRateLimiter`. -/
def NewRateLimiter (limit : Int) (timeFrame : Int) : RateLimiter :=
  { calls := [], limit := limit, timeFrame := timeFrame }

/-- Go `RateLimiter.Wait` as one serialized step: prune timestamps older
than the window, sleep when the pruned log has reached the limit (waking
at `wake` and re-pruning), then append the admission time.  Returns the
new state and the admitted call's timestamp.  (When `limit ≤ 0` and the
log is empty the Go code would panic on `r.calls[0]`; that branch appends
directly and is unreachable for `limit ≥ 1`.) -/
def waitStep (r : RateLimiter) (now wake : Int) : RateLimiter × Int :=
  let calls1 := r.calls.filter fun c => decide (now - c < r.timeFrame)
  if (calls1.length : Int) ≥ r.limit then
    match calls1 with
    | [] => ({ r with calls := calls1 ++ [now] }, now)
    | oldest :: _ =>
      if 0 < r.timeFrame - (now - oldest) then
        let calls2 := calls1.filter fun c => decide (wake - c < r.timeFrame)
        ({ r with calls := calls2 ++ [wake] }, wake)
      else ({ r with calls := calls1 ++ [now] }, now)
  else ({ r with calls := calls1 ++ [now] }, now)

/-- A serialized execution of `Wait` calls: returns the final state and
the list of admission timestamps in order. -/
def runRateLimiter : RateLimiter → List (Int × Int) → RateLimiter × List Int
  | r, [] => (r, [])
  | r, (now, wake) :: rest =>
    let step := waitStep r now wake
    let next := runRateLimiter step.1 rest
    (next.1, step.2 :: next.2)

/-- The scheduler facts of a serialized execution: each `now` is at least
the previous admission time (monotonic clock across the serialized
critical sections), and when the step sleeps, `wake` is at least
`oldest + timeFrame` (`time.Sleep` waits at least the requested
duration). -/
def validSchedule : RateLimiter → Int → List (Int × Int) → Bool
  | _, _, [] => true
  | r, prev, (now, wake) :: rest =>
    decide (prev ≤ now) &&
    (match r.calls.filter fun c => decide (now - c < r.timeFrame) with
     | [] => true
     | oldest :: restc =>
       if ((oldest :: restc).length : Int) ≥ r.limit ∧
           0 < r.timeFrame - (now - oldest)
       then decide (oldest + r.timeFrame ≤ wake)
       else true) &&
    validSchedule (waitStep r now wake).1 (waitStep r now wake).2 rest

/-! ## Cached lookup client (`VegvesenetAPIV4.GetVegreferanseMatches`)

The HTTP request machinery is an external collaborator: `fetch` stands for
`createRequest`/`executeRequest` and returns either a transport error or a
status code with a body; `parse` stands for `json.Unmarshal` into
`V4PositionResponse` and returns `none` on a malformed payload; `fmt`
stands for the `%.6f` formatting that builds the cache key from each
coordinate.  The disk cache becomes an association list keyed by the pair
of formatted coordinates (new entries shadow old ones, like an overwritten
file), and the number of external calls is counted explicitly. -/

/-- One item of the provider payload; fields the pipeline never reads
(`Veglenkesekvens`, `Geometri`) are omitted. -/
structure V4PositionResponseItem where
  Vegsystemreferanse : Vegsystemreferanse
  Kommune : Int
  Avstand : ℚ
deriving DecidableEq, Inhabited

/-- The mutable surroundings of the lookup client: the disk cache contents
and the running count of external calls issued. -/
structure ApiState where
  cache : List ((String × String) × List VegreferanseMatch)
  apiCalls : Nat
deriving DecidableEq, Inhabited

/-- `VegreferanseDiskCache.Get`: first (most recently written) entry for
the key, a miss otherwise. -/
def cacheGet (cache : List ((String × String) × List VegreferanseMatch))
    (key : String × String) : Option (List VegreferanseMatch) :=
  (cache.find? fun e => decide (e.1 = key)).map fun e => e.2

/-- `VegreferanseDiskCache.Set`: write the entry; a newer entry for the
same key shadows the older one. -/
def cacheSet (cache : List ((String × String) × List VegreferanseMatch))
    (key : String × String) (ms : List VegreferanseMatch) :
    List ((String × String) × List VegreferanseMatch) :=
  (key, ms) :: cache

/-- Go `GetVegreferanseMatches`: answer from the disk cache when enabled
and hit; otherwise issue the external call, and (1) propagate a transport
error without caching, (2) map 404 to the empty match list and cache it,
(3) propagate any other non-200 status as an error without caching,
(4) propagate a parse failure as an error without caching, (5) cache an
empty payload as the empty list, and (6) convert and cache the items
otherwise. -/
def getVegreferanseMatches
    (fetch : ℚ → ℚ → Except String (Int × String))
    (parse : String → Option (List V4PositionResponseItem))
    (fmt : ℚ → String) (cacheEnabled : Bool) (x y : ℚ) (st : ApiState) :
    Except String (List VegreferanseMatch) × ApiState :=
  let key := (fmt x, fmt y)
  let cached := if cacheEnabled then cacheGet st.cache key else none
  match cached with
  | some ms => (.ok ms, st)
  | none =>
    let st1 : ApiState := { st with apiCalls := st.apiCalls + 1 }
    match fetch x y with
    | .error e => (.error ("request failed: " ++ e), st1)
    | .ok (status, body) =>
      if status ≠ 200 then
        if status = 404 then
          (.ok [],
            if cacheEnabled then { st1 with cache := cacheSet st1.cache key [] }
            else st1)
        else (.error ("API error: " ++ body), st1)
      else
        match parse body with
        | none => (.error ("failed to parse response"), st1)
        | some result =>
          if result.length = 0 then
            (.ok [],
              if cacheEnabled then
                { st1 with cache := cacheSet st1.cache key [] }
              else st1)
          else
            let ms := result.map fun item =>
              { Vegsystemreferanse := item.Vegsystemreferanse,
                Avstand := item.Avstand : VegreferanseMatch }
            (.ok ms,
              if cacheEnabled then
                { st1 with cache := cacheSet st1.cache key ms }
              else st1)

/-! ## Spec-side definitions

`scoreSpec` is written from the specification's words, for comparison with
`calculateMatchScore`, which is translated from the source. -/

/-- The scoring function as the specification states it: 1000 for exactly
equal road identifiers (first whitespace-separated token), else 100 for
equal road categories, else 0; plus 50 when section identifiers (second
token) are present on both sides and equal; minus 10 times the candidate
distance (exact arithmetic, no truncation). -/
def scoreSpec (previous current : String) (distance : ℚ) : ℚ :=
  ((if (goFields previous).headD "" = (goFields current).headD "" then 1000
    else if extractCategory ((goFields previous).headD "") =
        extractCategory ((goFields current).headD "") then 100
    else 0) +
   (if 1 < (goFields previous).length ∧ 1 < (goFields current).length ∧
        (goFields previous).getD 1 "" = (goFields current).getD 1 "" then 50
    else 0) : Int)
  - 10 * distance

/-! ## Helper lemmas on `List.foldl max` and the selection scan -/

lemma le_foldl_max (l : List Int) (b : Int) : b ≤ l.foldl max b := by
  induction l generalizing b with
  | nil => exact le_refl b
  | cons s rest ih => exact le_trans (le_max_left b s) (ih (max b s))

lemma foldl_max_mem (l : List Int) (b : Int) :
    l.foldl max b = b ∨ l.foldl max b ∈ l := by
  induction l generalizing b with
  | nil => exact Or.inl rfl
  | cons s rest ih =>
    have hcons : (s :: rest).foldl max b = rest.foldl max (max b s) := rfl
    rcases ih (max b s) with h | h
    · rcases max_cases b s with ⟨he, _⟩ | ⟨he, _⟩
      · exact Or.inl (by rw [hcons, h, he])
      · exact Or.inr (by rw [hcons, h, he]; exact List.mem_cons_self s rest)
    · exact Or.inr (by rw [hcons]; exact List.mem_cons_of_mem _ h)

lemma elem_le_foldl_max (l : List Int) (b : Int) :
    ∀ x ∈ l, x ≤ l.foldl max b := by
  induction l generalizing b with
  | nil => intro x hx; exact absurd hx (List.not_mem_nil x)
  | cons s rest ih =>
    intro x hx
    rcases List.mem_cons.mp hx with rfl | hx
    · exact le_trans (le_max_right b x) (le_foldl_max rest (max b x))
    · exact ih (max b s) x hx

/-- The scan `bestLoop` is a first-argmax search with a sentinel: starting
from best score `bs`, it returns the position (offset by `i`) of the first
element attaining the running maximum when some element beats `bs`, and
leaves the accumulator untouched otherwise. -/
lemma bestLoop_eq (l : List Int) : ∀ (bm bs : Int) (i : Nat),
    bestLoop l bm bs i =
      if l.foldl max bs > bs then
        (((i + l.findIdx fun x => decide (x = l.foldl max bs) : Nat) : Int),
          l.foldl max bs)
      else (bm, bs) := by
  induction l with
  | nil =>
    intro bm bs i
    simp [bestLoop]
  | cons s rest ih =>
    intro bm bs i
    by_cases hs : s > bs
    · have hmax : max bs s = s := max_eq_right (le_of_lt hs)
      have hfold : (s :: rest).foldl max bs = rest.foldl max s := by
        simp [List.foldl_cons, hmax]
      by_cases h2 : rest.foldl max s > s
      · have hcond : (s :: rest).foldl max bs > bs := by
          rw [hfold]; exact lt_trans hs h2
        have hps : (decide (s = rest.foldl max s)) = false := by
          simp [ne_of_lt h2]
        rw [show bestLoop (s :: rest) bm bs i = bestLoop rest (i : Int) s (i + 1) by
              simp [bestLoop, hs],
            ih (i : Int) s (i + 1), if_pos h2, if_pos hcond, hfold]
        have hidx : (s :: rest).findIdx (fun x => decide (x = rest.foldl max s)) =
            rest.findIdx (fun x => decide (x = rest.foldl max s)) + 1 := by
          rw [List.findIdx_cons, hps]; rfl
        have harep : i + 1 + rest.findIdx (fun x => decide (x = rest.foldl max s)) =
            i + (rest.findIdx (fun x => decide (x = rest.foldl max s)) + 1) := by omega
        rw [hidx, harep]
      · have heq : rest.foldl max s = s :=
          le_antisymm (not_lt.mp h2) (le_foldl_max rest s)
        have hcond : (s :: rest).foldl max bs > bs := by rw [hfold, heq]; exact hs
        have hps : (decide (s = rest.foldl max s)) = true := by simp [heq]
        rw [show bestLoop (s :: rest) bm bs i = bestLoop rest (i : Int) s (i + 1) by
              simp [bestLoop, hs],
            ih (i : Int) s (i + 1), if_neg h2, if_pos hcond, hfold]
        have hidx : (s :: rest).findIdx (fun x => decide (x = rest.foldl max s)) = 0 := by
          rw [List.findIdx_cons, hps]; rfl
        rw [heq] at hidx ⊢
        rw [hidx]
        simp
    · have hmax : max bs s = bs := max_eq_left (not_lt.mp hs)
      have hfold : (s :: rest).foldl max bs = rest.foldl max bs := by
        simp [List.foldl_cons, hmax]
      by_cases h2 : rest.foldl max bs > bs
      · have hcond : (s :: rest).foldl max bs > bs := by rw [hfold]; exact h2
        have hps : (decide (s = rest.foldl max bs)) = false := by
          have : s < rest.foldl max bs := lt_of_le_of_lt (not_lt.mp hs) h2
          simp [ne_of_lt this]
        rw [show bestLoop (s :: rest) bm bs i = bestLoop rest bm bs (i + 1) by
              simp [bestLoop, hs],
            ih bm bs (i + 1), if_pos h2, if_pos hcond, hfold]
        have hidx : (s :: rest).findIdx (fun x => decide (x = rest.foldl max bs)) =
            rest.findIdx (fun x => decide (x = rest.foldl max bs)) + 1 := by
          rw [List.findIdx_cons, hps]; rfl
        have harep : i + 1 + rest.findIdx (fun x => decide (x = rest.foldl max bs)) =
            i + (rest.findIdx (fun x => decide (x = rest.foldl max bs)) + 1) := by omega
        rw [hidx, harep]
      · have hcond : ¬((s :: rest).foldl max bs > bs) := by rw [hfold]; exact h2
        rw [show bestLoop (s :: rest) bm bs i = bestLoop rest bm bs (i + 1) by
              simp [bestLoop, hs],
            ih bm bs (i + 1), if_neg h2, if_neg hcond]

/-! ## Claim C3: the scoring function -/

/-- Closed form of `calculateMatchScore` when both labels tokenize to at
least one field: the continuity bonuses minus the Go truncation
`int(distance * 10)`. -/
lemma calculateMatchScore_eq (previous current : String) (d : ℚ)
    (hp : goFields previous ≠ []) (hc : goFields current ≠ []) :
    calculateMatchScore previous current d =
      (if (goFields previous).headD "" = (goFields current).headD "" then 1000
       else if extractCategory ((goFields previous).headD "") =
           extractCategory ((goFields current).headD "") then 100
       else 0) +
      (if 1 < (goFields previous).length ∧ 1 < (goFields current).length ∧
          (goFields previous).getD 1 "" = (goFields current).getD 1 "" then 50
       else 0) -
      goTrunc (d * 10) := by
  have h1 : 0 < (goFields previous).length := List.length_pos.mpr hp
  have h2 : 0 < (goFields current).length := List.length_pos.mpr hc
  unfold calculateMatchScore
  rw [if_neg (by omega :
    ¬((goFields previous).length < 1 ∨ (goFields current).length < 1))]
  dsimp only
  by_cases hC : 1 < (goFields previous).length ∧
      1 < (goFields current).length ∧
      (goFields previous).getD 1 "" = (goFields current).getD 1 ""
  · rw [if_pos hC, if_pos hC]
  · rw [if_neg hC, if_neg hC]; ring

/-- **C3 — counterexample.** The claim says the score subtracts exactly
`10 × candidateDistance`.  The source subtracts Go's `int(distance * 10)`,
a truncation toward zero: at distance `1/4` the code returns
`1050 - 2 = 1048` while the claimed formula gives `1047.5`. -/
theorem calculateMatchScore_spec_counterexample :
    ((calculateMatchScore "E18 S1D1 m1" "E18 S1D1 m2" (1/4) : ℚ) ≠
      scoreSpec "E18 S1D1 m1" "E18 S1D1 m2" (1/4)) := by
  have hf1 : goFields "E18 S1D1 m1" = ["E18", "S1D1", "m1"] := rfl
  have hf2 : goFields "E18 S1D1 m2" = ["E18", "S1D1", "m2"] := rfl
  have hcode : calculateMatchScore "E18 S1D1 m1" "E18 S1D1 m2" (1/4) =
      1050 - goTrunc (1/4 * 10) := by
    rw [calculateMatchScore_eq _ _ _ (by rw [hf1]; simp) (by rw [hf2]; simp),
      hf1, hf2]
    norm_num
  have hmul : (1/4 : ℚ) * 10 = 5/2 := by norm_num
  have htr : goTrunc (5/2) = 2 := by
    unfold goTrunc
    rw [show ((5/2 : ℚ)).num = 5 by norm_num, show ((5/2 : ℚ)).den = 2 by
      norm_num]
    rfl
  rw [hcode, hmul, htr]
  unfold scoreSpec
  rw [hf1, hf2]
  norm_num

/-- **C3 — amended.** For every previous label and candidate label that
each contain at least one whitespace-separated token, and every candidate
distance, the scoring function returns 1000 if the road identifiers (first
tokens) are exactly equal, else 100 if their categories (maximal leading
non-digit segments) are equal, else 0; plus 50 additionally if section
identifiers (second tokens) are present on both sides and equal; minus the
**truncation toward zero** of 10 times the candidate distance.  (When
either label has no token the source returns 0 outright.) -/
theorem calculateMatchScore_characterization (previous current : String)
    (d : ℚ) (hp : goFields previous ≠ []) (hc : goFields current ≠ []) :
    calculateMatchScore previous current d =
      (if (goFields previous).headD "" = (goFields current).headD "" then 1000
       else if extractCategory ((goFields previous).headD "") =
           extractCategory ((goFields current).headD "") then 100
       else 0) +
      (if 1 < (goFields previous).length ∧ 1 < (goFields current).length ∧
          (goFields previous).getD 1 "" = (goFields current).getD 1 "" then 50
       else 0) -
      goTrunc (d * 10) :=
  calculateMatchScore_eq previous current d hp hc

/-- Witness for `calculateMatchScore_characterization`: the spec's own
continuity-override example scores `1000 + 50 - 30 = 1020`. -/
theorem calculateMatchScore_characterization_witness :
    calculateMatchScore "E18 S65D1 m12500" "E18 S65D1 m12600" 3 = 1020 := by
  have h := calculateMatchScore_characterization "E18 S65D1 m12500"
    "E18 S65D1 m12600" 3 (by decide) (by decide)
  rw [h, show goFields "E18 S65D1 m12500" = ["E18", "S65D1", "m12500"] from
    rfl, show goFields "E18 S65D1 m12600" = ["E18", "S65D1", "m12600"] from
    rfl]
  norm_num [goTrunc]

/-! ## Claim C1: selection is first-argmax of the scores -/

/-- Unfolding of `SelectBestMatch` in the scanning case (at least two
candidates, non-empty history). -/
lemma selectBestMatch_cons_cons (s : VegreferanseSelector)
    (m0 m1 : VegreferanseMatch) (rest : List VegreferanseMatch)
    (hh : s.history ≠ []) :
    SelectBestMatch s (m0 :: m1 :: rest) =
      (if (bestLoop ((m0 :: m1 :: rest).map fun m =>
            calculateMatchScore (s.history.getLastD "")
              m.Vegsystemreferanse.Kortform m.Avstand) (-1) (-1) 0).1 ≥ 0 then
        ((m0 :: m1 :: rest).getD
          (bestLoop ((m0 :: m1 :: rest).map fun m =>
            calculateMatchScore (s.history.getLastD "")
              m.Vegsystemreferanse.Kortform m.Avstand) (-1) (-1) 0).1.toNat
          default).Vegsystemreferanse.Kortform
      else m0.Vegsystemreferanse.Kortform) := by
  have hcond : ¬(m1 :: rest = [] ∨ s.history = []) := by
    intro h
    rcases h with h | h
    · exact List.cons_ne_nil m1 rest h
    · exact hh h
  simp only [SelectBestMatch]
  rw [if_neg hcond]

/-- **C1 — counterexample.**  With history `["X1"]` and the two candidates
`"A1"` (distance 1, score −10) and `"B1"` (distance 1/2, score −5), the
unique maximal-score candidate is `"B1"`, yet the source returns `"A1"`:
the scan's best score starts at the sentinel −1, so when every candidate
scores below 0 no candidate is ever selected and the code falls back to
the first candidate regardless of the scores. -/
theorem selectBestMatch_claim_counterexample :
    calculateMatchScore "X1" "A1" 1 < calculateMatchScore "X1" "B1" (1/2) ∧
    SelectBestMatch { history := ["X1"], maxHistory := 10 }
      [{ Vegsystemreferanse :=
          { Vegsystem := { Vegkategori := "", Fase := "", Nummer := 0 },
            Strekning :=
              { Strekning := 0, Delstrekning := 0, Arm := false, Meter := 0 },
            Kortform := "A1" }, Avstand := 1 },
       { Vegsystemreferanse :=
          { Vegsystem := { Vegkategori := "", Fase := "", Nummer := 0 },
            Strekning :=
              { Strekning := 0, Delstrekning := 0, Arm := false, Meter := 0 },
            Kortform := "B1" }, Avstand := 1/2 }] = "A1" ∧
    ("A1" : String) ≠ "B1" := by
  have h10 : goTrunc ((1 : ℚ) * 10) = 10 := by
    rw [show ((1 : ℚ) * 10) = 10 by norm_num]
    unfold goTrunc
    rw [show ((10 : ℚ)).num = 10 by norm_num, show ((10 : ℚ)).den = 1 by
      norm_num]
    decide
  have h5 : goTrunc ((1/2 : ℚ) * 10) = 5 := by
    rw [show ((1/2 : ℚ) * 10) = 5 by norm_num]
    unfold goTrunc
    rw [show ((5 : ℚ)).num = 5 by norm_num, show ((5 : ℚ)).den = 1 by
      norm_num]
    decide
  have hA : calculateMatchScore "X1" "A1" 1 = -10 := by
    rw [calculateMatchScore_eq _ _ _ (by decide) (by decide),
      show goFields "X1" = ["X1"] from rfl,
      show goFields "A1" = ["A1"] from rfl, h10]
    decide
  have hB : calculateMatchScore "X1" "B1" (1/2) = -5 := by
    rw [calculateMatchScore_eq _ _ _ (by decide) (by decide),
      show goFields "X1" = ["X1"] from rfl,
      show goFields "B1" = ["B1"] from rfl, h5]
    decide
  refine ⟨by rw [hA, hB]; decide, ?_, by decide⟩
  rw [selectBestMatch_cons_cons _ _ _ _ (by decide)]
  simp only [List.map_cons, List.map_nil]
  rw [show ((["X1"] : List String).getLastD "") = "X1" from rfl]
  rw [hA, hB]
  decide

/-- **C1 — amended.**  With at least two candidates and a non-empty
history, let `M` be the maximum of the sentinel −1 and every candidate's
score against the most recently appended history entry.  When `M ≥ 0`, the
returned label is the `Kortform` of the *first* candidate attaining `M`
(first maximal wins, via the strict `>` scan); when every candidate scores
at most −1 (so `M = −1`), the scan selects nothing and the source falls
back to the first candidate's label regardless of the score order. -/
theorem selectBestMatch_first_max (s : VegreferanseSelector)
    (ms : List VegreferanseMatch) (scores : List Int) (M : Int)
    (h2 : 2 ≤ ms.length) (hh : s.history ≠ [])
    (hscores : scores = ms.map fun m =>
      calculateMatchScore (s.history.getLastD "")
        m.Vegsystemreferanse.Kortform m.Avstand)
    (hM : M = scores.foldl max (-1)) :
    (-1 < M →
      scores.findIdx (fun x => decide (x = M)) < ms.length ∧
      scores.getD (scores.findIdx (fun x => decide (x = M))) 0 = M ∧
      (∀ k, k < scores.findIdx (fun x => decide (x = M)) →
        scores.getD k 0 < M) ∧
      SelectBestMatch s ms =
        (ms.getD (scores.findIdx (fun x => decide (x = M)))
          default).Vegsystemreferanse.Kortform) ∧
    (M ≤ -1 →
      SelectBestMatch s ms = (ms.headD default).Vegsystemreferanse.Kortform) := by
  match ms, h2 with
  | m0 :: m1 :: rest, _ =>
    subst hscores
    subst hM
    rw [selectBestMatch_cons_cons s m0 m1 rest hh]
    rw [bestLoop_eq]
    set scores := (m0 :: m1 :: rest).map fun m =>
      calculateMatchScore (s.history.getLastD "")
        m.Vegsystemreferanse.Kortform m.Avstand with hsc
    set M := scores.foldl max (-1) with hMdef
    by_cases hpos : M > -1
    · have hmem : M ∈ scores := by
        rcases foldl_max_mem scores (-1) with h | h
        · rw [← hMdef] at h
          omega
        · rwa [← hMdef] at h
      have hjlt : scores.findIdx (fun x => decide (x = M)) < scores.length :=
        List.findIdx_lt_length_of_exists ⟨M, hmem, by simp⟩
      have hlen : scores.length = (m0 :: m1 :: rest).length :=
        List.length_map _ _
      constructor
      · intro _
        refine ⟨by omega, ?_, ?_, ?_⟩
        · rw [List.getD_eq_getElem scores 0 hjlt]
          have := List.findIdx_getElem (w := hjlt)
          exact of_decide_eq_true this
        · intro k hk
          have hklt : k < scores.length := lt_trans hk hjlt
          rw [List.getD_eq_getElem scores 0 hklt]
          have hne := List.not_of_lt_findIdx hk
          have hne' : ¬(scores[k] = M) := by
            intro hcontra
            rw [hcontra] at hne
            simp at hne
          have hle : scores[k] ≤ M := by
            rw [hMdef]
            exact elem_le_foldl_max scores (-1) _ (List.getElem_mem hklt)
          omega
        · rw [if_pos hpos]
          dsimp only
          rw [Nat.zero_add,
            if_pos (Int.natCast_nonneg _ :
              ((scores.findIdx fun x => decide (x = M) : Nat) : Int) ≥ 0),
            Int.toNat_natCast]
      · intro hneg
        omega
    · constructor
      · intro h
        omega
      · intro _
        rw [if_neg hpos]
        dsimp only
        rw [if_neg (by omega : ¬((-1 : Int) ≥ 0))]
        rfl

/-- Witness for `selectBestMatch_first_max`: the spec's continuity-override
example, where the `E18` candidate scores 1020 and wins over the closer
`Kv1000` candidate (score −10). -/
theorem selectBestMatch_first_max_witness :
    SelectBestMatch { history := ["E18 S65D1 m12500"], maxHistory := 10 }
      [{ Vegsystemreferanse :=
          { Vegsystem := { Vegkategori := "", Fase := "", Nummer := 0 },
            Strekning :=
              { Strekning := 0, Delstrekning := 0, Arm := false, Meter := 0 },
            Kortform := "Kv1000 S1D1 m500" }, Avstand := 1 },
       { Vegsystemreferanse :=
          { Vegsystem := { Vegkategori := "", Fase := "", Nummer := 0 },
            Strekning :=
              { Strekning := 0, Delstrekning := 0, Arm := false, Meter := 0 },
            Kortform := "E18 S65D1 m12600" }, Avstand := 3 }] =
      "E18 S65D1 m12600" := by
  have h10 : goTrunc ((1 : ℚ) * 10) = 10 := by
    rw [show ((1 : ℚ) * 10) = 10 by norm_num]
    unfold goTrunc
    rw [show ((10 : ℚ)).num = 10 by norm_num, show ((10 : ℚ)).den = 1 by
      norm_num]
    decide
  have h30 : goTrunc ((3 : ℚ) * 10) = 30 := by
    rw [show ((3 : ℚ) * 10) = 30 by norm_num]
    unfold goTrunc
    rw [show ((30 : ℚ)).num = 30 by norm_num, show ((30 : ℚ)).den = 1 by
      norm_num]
    decide
  have hK : calculateMatchScore "E18 S65D1 m12500" "Kv1000 S1D1 m500" 1 =
      -10 := by
    rw [calculateMatchScore_eq _ _ _ (by decide) (by decide),
      show goFields "E18 S65D1 m12500" = ["E18", "S65D1", "m12500"] from rfl,
      show goFields "Kv1000 S1D1 m500" = ["Kv1000", "S1D1", "m500"] from rfl,
      h10]
    decide
  have hE : calculateMatchScore "E18 S65D1 m12500" "E18 S65D1 m12600" 3 =
      1020 := by
    rw [calculateMatchScore_eq _ _ _ (by decide) (by decide),
      show goFields "E18 S65D1 m12500" = ["E18", "S65D1", "m12500"] from rfl,
      show goFields "E18 S65D1 m12600" = ["E18", "S65D1", "m12600"] from rfl,
      h30]
    decide
  have h := selectBestMatch_first_max
    { history := ["E18 S65D1 m12500"], maxHistory := 10 }
    [{ Vegsystemreferanse :=
        { Vegsystem := { Vegkategori := "", Fase := "", Nummer := 0 },
          Strekning :=
            { Strekning := 0, Delstrekning := 0, Arm := false, Meter := 0 },
          Kortform := "Kv1000 S1D1 m500" }, Avstand := 1 },
     { Vegsystemreferanse :=
        { Vegsystem := { Vegkategori := "", Fase := "", Nummer := 0 },
          Strekning :=
            { Strekning := 0, Delstrekning := 0, Arm := false, Meter := 0 },
          Kortform := "E18 S65D1 m12600" }, Avstand := 3 }]
    _ _ (by decide) (by decide) rfl rfl
  simp only [List.map_cons, List.map_nil, hK, hE] at h
  rw [show ((["E18 S65D1 m12500"] : List String).getLastD "") =
    "E18 S65D1 m12500" from rfl] at h
  simp only [hK, hE] at h
  have h1 := (h.1 (by decide)).2.2.2
  rw [h1]
  decide

/-! ## Claim C8: FIFO eviction of the history -/

/-- Unfolding of `AddToHistory` on a non-empty label. -/
lemma addToHistory_of_ne (s : VegreferanseSelector) (v : String)
    (hv : v ≠ "") :
    AddToHistory s v =
      if ((s.history ++ [v]).length : Int) > s.maxHistory then
        { s with history := (s.history ++ [v]).drop 1 }
      else { s with history := s.history ++ [v] } := by
  unfold AddToHistory
  rw [if_neg hv]

/-- Folding `AddToHistory` over non-empty labels keeps exactly the most
recent `maxHistory` entries: starting from a selector whose history is
within capacity, the resulting history is the tail of the concatenated
sequence that fits the capacity. -/
lemma addToHistory_foldl (labels : List String) :
    ∀ (s : VegreferanseSelector), 0 ≤ s.maxHistory →
    (s.history.length : Int) ≤ s.maxHistory →
    (∀ l ∈ labels, l ≠ "") →
    (labels.foldl AddToHistory s).history =
      (s.history ++ labels).drop
        (s.history.length + labels.length - s.maxHistory.toNat) := by
  induction labels with
  | nil =>
    intro s hm hlen _
    rw [List.foldl_nil, List.append_nil, List.length_nil, Nat.add_zero,
      show s.history.length - s.maxHistory.toNat = 0 from by omega,
      List.drop_zero]
  | cons v rest ih =>
    intro s hm hlen hne
    have hv : v ≠ "" := hne v (List.mem_cons_self v rest)
    have hne' : ∀ l ∈ rest, l ≠ "" := fun l hl =>
      hne l (List.mem_cons_of_mem _ hl)
    rw [List.foldl_cons, addToHistory_of_ne s v hv]
    have hXlen : (s.history ++ [v]).length = s.history.length + 1 := by
      rw [List.length_append, List.length_singleton]
    by_cases hover : ((s.history ++ [v]).length : Int) > s.maxHistory
    · have hoverN : (s.history.length + 1 : Int) > s.maxHistory := by
        rw [hXlen] at hover
        exact_mod_cast hover
      have hlen2 : ((({ s with history := (s.history ++ [v]).drop 1 } :
          VegreferanseSelector).history.length : Int)) ≤
          ({ s with history := (s.history ++ [v]).drop 1 } :
            VegreferanseSelector).maxHistory := by
        dsimp only
        rw [List.length_drop, hXlen]
        omega
      rw [if_pos hover,
        ih { s with history := (s.history ++ [v]).drop 1 } hm hlen2 hne']
      dsimp only
      rw [List.length_drop, hXlen,
        ← List.drop_append_of_le_length
          (by rw [hXlen]; omega : 1 ≤ (s.history ++ [v]).length),
        List.drop_drop,
        show (s.history ++ [v]) ++ rest = s.history ++ v :: rest by simp,
        List.length_cons]
      congr 1
      omega
    · have hoverN : (s.history.length + 1 : Int) ≤ s.maxHistory := by
        have h := not_lt.mp hover
        rw [hXlen] at h
        exact_mod_cast h
      have hlen2 : ((({ s with history := s.history ++ [v] } :
          VegreferanseSelector).history.length : Int)) ≤
          ({ s with history := s.history ++ [v] } :
            VegreferanseSelector).maxHistory := by
        dsimp only
        rw [hXlen]
        exact_mod_cast hoverN
      rw [if_neg hover,
        ih { s with history := s.history ++ [v] } hm hlen2 hne']
      dsimp only
      rw [hXlen,
        show (s.history ++ [v]) ++ rest = s.history ++ v :: rest by simp,
        List.length_cons]
      congr 1
      omega

/-- **C8.**  After appending more than `maxHistory` non-empty labels to a
fresh selector, the history is exactly the suffix of the appended sequence
of length `maxHistory` — the most recently appended labels in insertion
(FIFO) order, with the oldest entries evicted — and its length is exactly
`maxHistory`. -/
theorem addToHistory_eviction (maxHistory : Int) (labels : List String)
    (hm : 0 ≤ maxHistory) (hne : ∀ l ∈ labels, l ≠ "")
    (hlen : maxHistory < (labels.length : Int)) :
    (labels.foldl AddToHistory (NewVegreferanseSelector maxHistory)).history =
      labels.drop (labels.length - maxHistory.toNat) ∧
    (((labels.foldl AddToHistory
        (NewVegreferanseSelector maxHistory)).history.length : Int)) =
      maxHistory := by
  have h := addToHistory_foldl labels (NewVegreferanseSelector maxHistory) hm
    (by simpa [NewVegreferanseSelector] using hm) hne
  have h' : (labels.foldl AddToHistory
      (NewVegreferanseSelector maxHistory)).history =
      labels.drop (labels.length - maxHistory.toNat) := by
    simpa [NewVegreferanseSelector] using h
  refine ⟨h', ?_⟩
  rw [h', List.length_drop]
  omega

/-- Witness for `addToHistory_eviction`: capacity 2, three appends keep
exactly the last two labels. -/
theorem addToHistory_eviction_witness :
    (["a", "b", "c"].foldl AddToHistory (NewVegreferanseSelector 2)).history =
      ["b", "c"] ∧
    ((["a", "b", "c"].foldl AddToHistory
      (NewVegreferanseSelector 2)).history.length : Int) = 2 := by
  have h := addToHistory_eviction 2 ["a", "b", "c"] (by decide) (by decide)
    (by decide)
  exact ⟨h.1.trans (by decide), h.2⟩

/-! ## Claim C9: the history never contains the empty label -/

/-- One selector operation preserves "every history entry is non-empty":
`AddToHistory` refuses the empty label and otherwise appends a non-empty
one (possibly dropping the oldest entry), and `SelectBestMatch` itself
never mutates the history. -/
lemma runSelectorOp_preserves (s : VegreferanseSelector) (op : SelectorOp)
    (h : ∀ e ∈ s.history, e ≠ "") :
    ∀ e ∈ (runSelectorOp s op).history, e ≠ "" := by
  have haux : ∀ (v : String), ∀ e ∈ (AddToHistory s v).history, e ≠ "" := by
    intro v e he
    unfold AddToHistory at he
    by_cases hv : v = ""
    · rw [if_pos hv] at he
      exact h e he
    · rw [if_neg hv] at he
      dsimp only at he
      by_cases hover : ((s.history ++ [v]).length : Int) > s.maxHistory
      · rw [if_pos hover] at he
        dsimp only at he
        rcases List.mem_append.mp (List.mem_of_mem_drop he) with h1 | h1
        · exact h e h1
        · rw [List.mem_singleton.mp h1]
          exact hv
      · rw [if_neg hover] at he
        dsimp only at he
        rcases List.mem_append.mp he with h1 | h1
        · exact h e h1
        · rw [List.mem_singleton.mp h1]
          exact hv
  cases op with
  | add label => exact haux label
  | select ms =>
    by_cases hms : 0 < ms.length
    · simpa [runSelectorOp, hms] using haux (SelectBestMatch s ms)
    · simpa [runSelectorOp, hms] using h

/-- **C9.**  After any sequence of selector operations on a fresh selector
(direct `AddToHistory` calls, including with the empty string, and
selection steps as performed by `applyVegreferanseSelector`), every entry
of the history is a non-empty label. -/
theorem history_no_empty_label (ops : List SelectorOp) (maxHistory : Int) :
    ∀ e ∈ (ops.foldl runSelectorOp
      (NewVegreferanseSelector maxHistory)).history, e ≠ "" := by
  have key : ∀ (l : List SelectorOp) (s : VegreferanseSelector),
      (∀ e ∈ s.history, e ≠ "") →
      ∀ e ∈ (l.foldl runSelectorOp s).history, e ≠ "" := by
    intro l
    induction l with
    | nil =>
      intro s hs
      simpa using hs
    | cons op rest ih =>
      intro s hs
      rw [List.foldl_cons]
      exact ih _ (runSelectorOp_preserves s op hs)
  exact key ops (NewVegreferanseSelector maxHistory)
    (by simp [NewVegreferanseSelector])

/-- Witness for `history_no_empty_label`: after an `AddToHistory "a"`, an
ignored `AddToHistory ""` and one selection step, the selected label
`"A1"` sits in the history and is non-empty. -/
theorem history_no_empty_label_witness : ("A1" : String) ≠ "" :=
  history_no_empty_label
    [SelectorOp.add "a", SelectorOp.add "",
     SelectorOp.select
       [{ Vegsystemreferanse :=
            { Vegsystem := { Vegkategori := "", Fase := "", Nummer := 0 },
              Strekning :=
                { Strekning := 0, Delstrekning := 0, Arm := false,
                  Meter := 0 },
              Kortform := "A1" }, Avstand := 1 }]]
    10 "A1" (by decide)

/-! ## Claim C10: the selection returns a candidate's label -/

/-- **C10.**  For the empty candidate list, `SelectBestMatch` returns the
empty string; for every non-empty candidate list and every history state,
it returns the `Kortform` label of one of the given candidates — it never
fabricates a label that is not among the candidates. -/
theorem selectBestMatch_mem (s : VegreferanseSelector)
    (ms : List VegreferanseMatch) :
    (ms = [] → SelectBestMatch s ms = "") ∧
    (ms ≠ [] → SelectBestMatch s ms ∈
      ms.map fun m => m.Vegsystemreferanse.Kortform) := by
  cases ms with
  | nil => exact ⟨fun _ => rfl, fun h => absurd rfl h⟩
  | cons m0 rest =>
    refine ⟨fun h => absurd h (List.cons_ne_nil m0 rest), fun _ => ?_⟩
    cases rest with
    | nil => simp [SelectBestMatch]
    | cons m1 rest2 =>
      by_cases hh : s.history = []
      · rw [show SelectBestMatch s (m0 :: m1 :: rest2) =
            m0.Vegsystemreferanse.Kortform from by
          simp [SelectBestMatch, hh]]
        exact List.mem_map.mpr ⟨m0, List.mem_cons_self _ _, rfl⟩
      · rw [selectBestMatch_cons_cons s m0 m1 rest2 hh]
        set scores := (m0 :: m1 :: rest2).map fun m =>
          calculateMatchScore (s.history.getLastD "")
            m.Vegsystemreferanse.Kortform m.Avstand with hsc
        rw [bestLoop_eq]
        by_cases hpos : scores.foldl max (-1) > -1
        · rw [if_pos hpos]
          dsimp only
          rw [Nat.zero_add,
            if_pos (Int.natCast_nonneg _ :
              ((scores.findIdx fun x =>
                decide (x = scores.foldl max (-1)) : Nat) : Int) ≥ 0),
            Int.toNat_natCast]
          have hmem : scores.foldl max (-1) ∈ scores := by
            rcases foldl_max_mem scores (-1) with h | h
            · omega
            · exact h
          have hjlt : (scores.findIdx fun x =>
              decide (x = scores.foldl max (-1))) < scores.length :=
            List.findIdx_lt_length_of_exists ⟨_, hmem, by simp⟩
          have hlen : scores.length = (m0 :: m1 :: rest2).length :=
            List.length_map _ _
          rw [List.getD_eq_getElem _ _ (by omega)]
          exact List.mem_map.mpr ⟨_, List.getElem_mem _, rfl⟩
        · rw [if_neg hpos]
          dsimp only
          rw [if_neg (by omega : ¬((-1 : Int) ≥ 0))]
          exact List.mem_map.mpr ⟨m0, List.mem_cons_self _ _, rfl⟩

/-- Witness for `selectBestMatch_mem`: the empty list yields the empty
label, and a concrete selection returns a label from the candidate list. -/
theorem selectBestMatch_mem_witness :
    SelectBestMatch (NewVegreferanseSelector 10) [] = "" ∧
    SelectBestMatch (NewVegreferanseSelector 10)
      [{ Vegsystemreferanse :=
          { Vegsystem := { Vegkategori := "", Fase := "", Nummer := 0 },
            Strekning :=
              { Strekning := 0, Delstrekning := 0, Arm := false, Meter := 0 },
            Kortform := "A1" }, Avstand := 1 }] ∈
      ([{ Vegsystemreferanse :=
          { Vegsystem := { Vegkategori := "", Fase := "", Nummer := 0 },
            Strekning :=
              { Strekning := 0, Delstrekning := 0, Arm := false, Meter := 0 },
            Kortform := "A1" }, Avstand := 1 }] :
        List VegreferanseMatch).map fun m => m.Vegsystemreferanse.Kortform :=
  ⟨(selectBestMatch_mem (NewVegreferanseSelector 10) []).1 rfl,
   (selectBestMatch_mem (NewVegreferanseSelector 10) _).2 (by decide)⟩

/-! ## Claims C2 and C4: order restoration in the worker pool -/

/-- Every branch of the worker body stamps the task's own line index on
its result. -/
lemma processLine_lineIdx {Q : Type} (parseF : String → Option Q)
    (provider : Q → Q → Except String (List VegreferanseMatch))
    (cfg : CoordToVegrefConfig) (i : Nat) (line : String) :
    (processLine parseF provider cfg i line).lineIdx = i := by
  unfold processLine
  dsimp only
  split
  · rfl
  · split
    · rfl
    · split
      · rfl
      · split
        · rfl
        · rfl

/-- The i-th entry of the deterministic result multiset carries line
index i. -/
lemma processTargets_lineIdx {Q : Type} (parseF : String → Option Q)
    (provider : Q → Q → Except String (List VegreferanseMatch))
    (cfg : CoordToVegrefConfig) (lines : List String) :
    ∀ (j : Nat) (hj : j < (processTargets parseF provider cfg lines).length),
      (processTargets parseF provider cfg lines)[j].lineIdx = j := by
  intro j hj
  unfold processTargets
  rw [List.getElem_mapIdx]
  exact processLine_lineIdx parseF provider cfg j _

/-- Writing results by index preserves the slice's length. -/
lemma foldl_set_length (arrived : List processResult) :
    ∀ acc : List processResult,
      (arrived.foldl (fun acc r => acc.set r.lineIdx r) acc).length =
        acc.length := by
  induction arrived with
  | nil => intro acc; rfl
  | cons x rest ih =>
    intro acc
    rw [List.foldl_cons, ih, List.length_set]

/-- A slot whose index no arriving result carries is never overwritten. -/
lemma foldl_set_not_mem (arrived : List processResult) :
    ∀ (acc : List processResult) (i : Nat),
      (∀ r ∈ arrived, r.lineIdx ≠ i) → i < acc.length →
      (arrived.foldl (fun acc r => acc.set r.lineIdx r) acc).getD i default =
        acc.getD i default := by
  induction arrived with
  | nil => intro acc i _ _; rfl
  | cons x rest ih =>
    intro acc i hne hi
    rw [List.foldl_cons,
      ih _ i (fun r hr => hne r (List.mem_cons_of_mem _ hr))
        (by rw [List.length_set]; exact hi)]
    have hxi : x.lineIdx ≠ i := hne x (List.mem_cons_self _ _)
    rw [List.getD_eq_getElem _ _ (by rw [List.length_set]; exact hi),
      List.getElem_set_ne hxi, List.getD_eq_getElem _ _ hi]

/-- The slot of an arriving result that is unique for its index ends up
holding exactly that result. -/
lemma foldl_set_mem (arrived : List processResult) :
    ∀ (acc : List processResult) (t : processResult),
      t ∈ arrived → (∀ r ∈ arrived, r.lineIdx = t.lineIdx → r = t) →
      t.lineIdx < acc.length →
      (arrived.foldl (fun acc r => acc.set r.lineIdx r) acc).getD
        t.lineIdx default = t := by
  induction arrived with
  | nil => intro acc t ht _ _; exact absurd ht (List.not_mem_nil t)
  | cons x rest ih =>
    intro acc t ht huniq hlt
    rw [List.foldl_cons]
    by_cases hmem : t ∈ rest
    · exact ih _ t hmem (fun r hr h => huniq r (List.mem_cons_of_mem _ hr) h)
        (by rw [List.length_set]; exact hlt)
    · have hxt : x = t := by
        rcases List.mem_cons.mp ht with h | h
        · exact h.symm
        · exact absurd h hmem
      subst hxt
      have hrest : ∀ r ∈ rest, r.lineIdx ≠ x.lineIdx := by
        intro r hr hcontra
        exact hmem ((huniq r (List.mem_cons_of_mem _ hr) hcontra) ▸ hr)
      rw [foldl_set_not_mem rest _ x.lineIdx hrest
        (by rw [List.length_set]; exact hlt),
        List.getD_eq_getElem _ _ (by rw [List.length_set]; exact hlt),
        List.getElem_set_self]

/-- Collecting any permutation of a list whose j-th element carries line
index j restores that list exactly. -/
lemma collectResults_of_perm (n : Nat) (target arrived : List processResult)
    (hlenT : target.length = n)
    (hidxT : ∀ (j : Nat) (hj : j < target.length), target[j].lineIdx = j)
    (hperm : arrived.Perm target) :
    collectResults n arrived = target := by
  unfold collectResults
  apply List.ext_getElem
  · rw [foldl_set_length, List.length_replicate, hlenT]
  · intro i h1 h2
    have htmem : target[i] ∈ arrived :=
      hperm.mem_iff.mpr (List.getElem_mem h2)
    have htuniq : ∀ r ∈ arrived, r.lineIdx = target[i].lineIdx →
        r = target[i] := by
      intro r hr hidx
      obtain ⟨k, hk, hkr⟩ :=
        List.mem_iff_getElem.mp (hperm.mem_iff.mp hr)
      have hki : k = i := by
        have ha := hidxT k hk
        rw [hkr] at ha
        rw [hidxT i h2] at hidx
        omega
      subst hki
      exact hkr.symm
    have hlidx : target[i].lineIdx = i := hidxT i h2
    have hres := foldl_set_mem arrived (List.replicate n default) target[i]
      htmem htuniq (by rw [List.length_replicate, hlidx]; omega)
    rw [hlidx] at hres
    rw [← List.getD_eq_getElem _ default h1]
    exact hres

/-- Sorting by line index is the identity on a slice whose j-th element
carries line index j. -/
lemma sortByLineIdx_of_idx (rs : List processResult)
    (hidx : ∀ (j : Nat) (hj : j < rs.length), rs[j].lineIdx = j) :
    sortByLineIdx rs = rs := by
  unfold sortByLineIdx
  apply List.mergeSort_of_sorted
  rw [List.pairwise_iff_getElem]
  intro i j hi hj hij
  simp only [decide_eq_true_eq]
  rw [hidx i hi, hidx j hj]
  omega

/-- The batch stage restores the deterministic per-line results from any
arrival order of the result channel. -/
lemma processCoordinates_eq_targets {Q : Type} (parseF : String → Option Q)
    (provider : Q → Q → Except String (List VegreferanseMatch))
    (cfg : CoordToVegrefConfig) (lines : List String)
    (arrived : List processResult)
    (hperm : arrived.Perm (processTargets parseF provider cfg lines)) :
    processCoordinatesToVegreferanse lines arrived =
      processTargets parseF provider cfg lines := by
  have hcol := collectResults_of_perm lines.length
    (processTargets parseF provider cfg lines) arrived
    List.length_mapIdx (processTargets_lineIdx parseF provider cfg lines)
    hperm
  unfold processCoordinatesToVegreferanse
  rw [hcol]
  exact sortByLineIdx_of_idx _ (processTargets_lineIdx parseF provider cfg lines)

/-- **C2.**  For every input and every arrival order of the worker pool's
result channel (any worker count `W ≥ 1` only affects this order), the
batch stage returns exactly the per-line results in input order:
`result[i].lineIdx = i` for all `i < N`, the result sequence equals the
deterministic sequential one, and the written output lines coincide —
the final output line order equals the input line order. -/
theorem order_preservation {Q : Type} (parseF : String → Option Q)
    (provider : Q → Q → Except String (List VegreferanseMatch))
    (cfg : CoordToVegrefConfig) (lines : List String)
    (arrived : List processResult)
    (hperm : arrived.Perm (processTargets parseF provider cfg lines)) :
    processCoordinatesToVegreferanse lines arrived =
      processTargets parseF provider cfg lines ∧
    (∀ (i : Nat), i < lines.length →
      ((processCoordinatesToVegreferanse lines arrived).getD i
        default).lineIdx = i) ∧
    writeResults (processCoordinatesToVegreferanse lines arrived) =
      writeResults (processTargets parseF provider cfg lines) := by
  have heq := processCoordinates_eq_targets parseF provider cfg lines
    arrived hperm
  refine ⟨heq, ?_, by rw [heq]⟩
  intro i hi
  rw [heq]
  have hlenT : (processTargets parseF provider cfg lines).length =
      lines.length := List.length_mapIdx
  rw [List.getD_eq_getElem _ _ (by omega)]
  exact processTargets_lineIdx parseF provider cfg lines i (by omega)

/-- Witness for `order_preservation`: two lines arriving in reverse order
are restored to input order. -/
theorem order_preservation_witness :
    processCoordinatesToVegreferanse ["a\tb", "c\td"]
      ((processTargets (fun _ => some (0 : Int)) (fun _ _ => Except.ok [])
        { XColumn := 0, YColumn := 1 } ["a\tb", "c\td"]).reverse) =
      processTargets (fun _ => some (0 : Int)) (fun _ _ => Except.ok [])
        { XColumn := 0, YColumn := 1 } ["a\tb", "c\td"] :=
  (order_preservation (fun _ => some (0 : Int)) (fun _ _ => Except.ok [])
    { XColumn := 0, YColumn := 1 } ["a\tb", "c\td"] _
    (List.reverse_perm _)).1

/-- **C4.**  The ordered result sequence and the written output of the
batch stage are the same for every arrival order of the result channel;
since the worker count `W` influences only which permutation of the
per-line results arrives (W = 1 yields the identity order), every `W ≥ 1`
produces the same ordered results and the same final output as `W = 1`. -/
theorem worker_count_equivalence {Q : Type} (parseF : String → Option Q)
    (provider : Q → Q → Except String (List VegreferanseMatch))
    (cfg : CoordToVegrefConfig) (lines : List String)
    (arrived₁ arrived₂ : List processResult)
    (h₁ : arrived₁.Perm (processTargets parseF provider cfg lines))
    (h₂ : arrived₂.Perm (processTargets parseF provider cfg lines)) :
    processCoordinatesToVegreferanse lines arrived₁ =
      processCoordinatesToVegreferanse lines arrived₂ ∧
    writeResults (processCoordinatesToVegreferanse lines arrived₁) =
      writeResults (processCoordinatesToVegreferanse lines arrived₂) := by
  have e₁ := processCoordinates_eq_targets parseF provider cfg lines
    arrived₁ h₁
  have e₂ := processCoordinates_eq_targets parseF provider cfg lines
    arrived₂ h₂
  rw [e₁, e₂]
  exact ⟨rfl, rfl⟩

/-- Witness for `worker_count_equivalence`: a reversed arrival order (a
concurrent schedule) and the in-order arrival (the `W = 1` schedule)
produce identical results. -/
theorem worker_count_equivalence_witness :
    processCoordinatesToVegreferanse ["a\tb", "c\td"]
      ((processTargets (fun _ => some (0 : Int)) (fun _ _ => Except.ok [])
        { XColumn := 0, YColumn := 1 } ["a\tb", "c\td"]).reverse) =
      processCoordinatesToVegreferanse ["a\tb", "c\td"]
        (processTargets (fun _ => some (0 : Int)) (fun _ _ => Except.ok [])
          { XColumn := 0, YColumn := 1 } ["a\tb", "c\td"]) :=
  (worker_count_equivalence (fun _ => some (0 : Int))
    (fun _ _ => Except.ok []) { XColumn := 0, YColumn := 1 }
    ["a\tb", "c\td"] _ _ (List.reverse_perm _) (List.Perm.refl _)).1

/-! ## Claims C6 and C7: the cached lookup client -/

/-- Reading back the entry just written hits it. -/
lemma cacheGet_cacheSet
    (cache : List ((String × String) × List VegreferanseMatch))
    (key : String × String) (ms : List VegreferanseMatch) :
    cacheGet (cacheSet cache key ms) key = some ms := by
  simp [cacheGet, cacheSet]

/-- A successful (HTTP 200, parseable) lookup on a cache miss issues the
external call, returns the converted items, and writes them through to
the cache. -/
lemma getVegreferanseMatches_ok
    (fetch : ℚ → ℚ → Except String (Int × String))
    (parse : String → Option (List V4PositionResponseItem))
    (fmt : ℚ → String) (x y : ℚ) (st : ApiState)
    (body : String) (items : List V4PositionResponseItem)
    (hmiss : cacheGet st.cache (fmt x, fmt y) = none)
    (hfetch : fetch x y = .ok (200, body))
    (hparse : parse body = some items) :
    getVegreferanseMatches fetch parse fmt true x y st =
      (.ok (items.map fun item =>
          { Vegsystemreferanse := item.Vegsystemreferanse,
            Avstand := item.Avstand }),
        { cache := cacheSet st.cache (fmt x, fmt y)
            (items.map fun item =>
              { Vegsystemreferanse := item.Vegsystemreferanse,
                Avstand := item.Avstand }),
          apiCalls := st.apiCalls + 1 }) := by
  by_cases hlen : items.length = 0
  · have hnil : items = [] := List.length_eq_zero.mp hlen
    subst hnil
    simp [getVegreferanseMatches, hmiss, hfetch, hparse]
  · simp [getVegreferanseMatches, hmiss, hfetch, hparse, hlen]

/-- **C6.**  With the disk cache enabled, looking up twice with
coordinates that format identically (the fixed 6-decimal cache key)
issues exactly one external call when the key is not yet cached and the
provider answers successfully: the first call increments the call count
and writes through, the second is answered from the cache, leaves the
call count unchanged, and returns candidates identical to the first
call's. -/
theorem cache_idempotence
    (fetch : ℚ → ℚ → Except String (Int × String))
    (parse : String → Option (List V4PositionResponseItem))
    (fmt : ℚ → String) (x₁ y₁ x₂ y₂ : ℚ) (st : ApiState)
    (hx : fmt x₁ = fmt x₂) (hy : fmt y₁ = fmt y₂)
    (hmiss : cacheGet st.cache (fmt x₁, fmt y₁) = none)
    (body : String) (items : List V4PositionResponseItem)
    (hfetch : fetch x₁ y₁ = .ok (200, body))
    (hparse : parse body = some items) :
    (getVegreferanseMatches fetch parse fmt true x₁ y₁ st).2.apiCalls =
      st.apiCalls + 1 ∧
    (getVegreferanseMatches fetch parse fmt true x₂ y₂
      (getVegreferanseMatches fetch parse fmt true x₁ y₁ st).2).2.apiCalls =
      st.apiCalls + 1 ∧
    (getVegreferanseMatches fetch parse fmt true x₂ y₂
      (getVegreferanseMatches fetch parse fmt true x₁ y₁ st).2).1 =
      (getVegreferanseMatches fetch parse fmt true x₁ y₁ st).1 ∧
    (getVegreferanseMatches fetch parse fmt true x₁ y₁ st).1 =
      .ok (items.map fun item =>
        { Vegsystemreferanse := item.Vegsystemreferanse,
          Avstand := item.Avstand }) := by
  have h1 := getVegreferanseMatches_ok fetch parse fmt x₁ y₁ st body items
    hmiss hfetch hparse
  have h2 : getVegreferanseMatches fetch parse fmt true x₂ y₂
      (getVegreferanseMatches fetch parse fmt true x₁ y₁ st).2 =
      ((getVegreferanseMatches fetch parse fmt true x₁ y₁ st).1,
        (getVegreferanseMatches fetch parse fmt true x₁ y₁ st).2) := by
    rw [h1]
    simp only [getVegreferanseMatches, ← hx, ← hy, cacheGet_cacheSet,
      ite_true]
  rw [h2, h1]
  exact ⟨rfl, rfl, rfl, rfl⟩

/-- Witness for `cache_idempotence`: an empty (but successful) provider
answer is cached by the first call and served from the cache by the
second. -/
theorem cache_idempotence_witness :
    (getVegreferanseMatches (fun _ _ => Except.ok (200, "x"))
      (fun _ => some []) (fun _ => "k") true 0 0
      { cache := [], apiCalls := 0 }).2.apiCalls = 0 + 1 ∧
    (getVegreferanseMatches (fun _ _ => Except.ok (200, "x"))
      (fun _ => some []) (fun _ => "k") true 0 0
      (getVegreferanseMatches (fun _ _ => Except.ok (200, "x"))
        (fun _ => some []) (fun _ => "k") true 0 0
        { cache := [], apiCalls := 0 }).2).2.apiCalls = 0 + 1 ∧
    (getVegreferanseMatches (fun _ _ => Except.ok (200, "x"))
      (fun _ => some []) (fun _ => "k") true 0 0
      (getVegreferanseMatches (fun _ _ => Except.ok (200, "x"))
        (fun _ => some []) (fun _ => "k") true 0 0
        { cache := [], apiCalls := 0 }).2).1 =
      (getVegreferanseMatches (fun _ _ => Except.ok (200, "x"))
        (fun _ => some []) (fun _ => "k") true 0 0
        { cache := [], apiCalls := 0 }).1 := by
  have h := cache_idempotence (fun _ _ => Except.ok (200, "x"))
    (fun _ => some []) (fun _ => "k") 0 0 0 0
    { cache := [], apiCalls := 0 } rfl rfl rfl "x" [] rfl rfl
  exact ⟨h.1, h.2.1, h.2.2.1⟩

/-- **C7.**  On a cache miss with the cache enabled: a transport error, a
non-200/404 status, and an unparseable payload are all propagated as
errors to the caller with the cache left exactly unchanged, while an
empty match list (HTTP 404, or a successfully parsed empty payload) is a
valid non-error outcome that is written through to the cache. -/
theorem error_propagation_no_cache_write
    (fetch : ℚ → ℚ → Except String (Int × String))
    (parse : String → Option (List V4PositionResponseItem))
    (fmt : ℚ → String) (x y : ℚ) (st : ApiState)
    (hmiss : cacheGet st.cache (fmt x, fmt y) = none) :
    (∀ e, fetch x y = .error e →
      (getVegreferanseMatches fetch parse fmt true x y st).1 =
        .error ("request failed: " ++ e) ∧
      (getVegreferanseMatches fetch parse fmt true x y st).2.cache =
        st.cache) ∧
    (∀ status body, fetch x y = .ok (status, body) → status ≠ 200 →
      status ≠ 404 →
      (getVegreferanseMatches fetch parse fmt true x y st).1 =
        .error ("API error: " ++ body) ∧
      (getVegreferanseMatches fetch parse fmt true x y st).2.cache =
        st.cache) ∧
    (∀ body, fetch x y = .ok (200, body) → parse body = none →
      (getVegreferanseMatches fetch parse fmt true x y st).1 =
        .error ("failed to parse response") ∧
      (getVegreferanseMatches fetch parse fmt true x y st).2.cache =
        st.cache) ∧
    (∀ body, fetch x y = .ok (404, body) →
      (getVegreferanseMatches fetch parse fmt true x y st).1 = .ok [] ∧
      (getVegreferanseMatches fetch parse fmt true x y st).2.cache =
        cacheSet st.cache (fmt x, fmt y) []) ∧
    (∀ body, fetch x y = .ok (200, body) → parse body = some [] →
      (getVegreferanseMatches fetch parse fmt true x y st).1 = .ok [] ∧
      (getVegreferanseMatches fetch parse fmt true x y st).2.cache =
        cacheSet st.cache (fmt x, fmt y) []) := by
  refine ⟨?_, ?_, ?_, ?_, ?_⟩
  · intro e he
    constructor <;> simp [getVegreferanseMatches, hmiss, he]
  · intro status body hf h200 h404
    constructor <;> simp [getVegreferanseMatches, hmiss, hf, h200, h404]
  · intro body hf hp
    constructor <;> simp [getVegreferanseMatches, hmiss, hf, hp]
  · intro body hf
    constructor <;> simp [getVegreferanseMatches, hmiss, hf]
  · intro body hf hp
    constructor <;> simp [getVegreferanseMatches, hmiss, hf, hp]

/-- Witness for `error_propagation_no_cache_write`: a transport error is
propagated and the (empty) cache is untouched. -/
theorem error_propagation_no_cache_write_witness :
    (getVegreferanseMatches (fun _ _ => Except.error "boom")
      (fun _ => none) (fun _ => "k") true 0 0
      { cache := [], apiCalls := 0 }).1 =
      Except.error ("request failed: " ++ "boom") ∧
    (getVegreferanseMatches (fun _ _ => Except.error "boom")
      (fun _ => none) (fun _ => "k") true 0 0
      { cache := [], apiCalls := 0 }).2.cache = [] :=
  (error_propagation_no_cache_write (fun _ _ => Except.error "boom")
    (fun _ => none) (fun _ => "k") 0 0 { cache := [], apiCalls := 0 }
    rfl).1 "boom" rfl

/-! ## Claim C5: the sliding-window rate bound -/

/-- Re-pruning an already pruned timestamp log at a later instant prunes
directly from the underlying history. -/
lemma filter_window_mono (hist : List Int) (T p q : Int) (hpq : p ≤ q) :
    (hist.filter fun c => decide (p - c < T)).filter
      (fun c => decide (q - c < T)) =
    hist.filter fun c => decide (q - c < T) := by
  rw [List.filter_filter]
  apply List.filter_congr
  intro c _
  by_cases h : q - c < T
  · have h2 : p - c < T := by omega
    simp [h, h2]
  · simp [h]

/-- `waitStep` in the sleeping branch: the pruned log has reached the
limit and the computed wait is positive, so the call wakes at `wake`,
re-prunes and admits at `wake`. -/
lemma waitStep_sleep (r : RateLimiter) (now wake oldest : Int)
    (restc : List Int)
    (hc : r.calls.filter (fun c => decide (now - c < r.timeFrame)) =
      oldest :: restc)
    (hlim : ((oldest :: restc).length : Int) ≥ r.limit)
    (hwait : 0 < r.timeFrame - (now - oldest)) :
    waitStep r now wake =
      ({ r with calls := ((oldest :: restc).filter
          fun c => decide (wake - c < r.timeFrame)) ++ [wake] }, wake) := by
  unfold waitStep
  rw [hc, if_pos hlim]
  dsimp only
  rw [if_pos hwait]

/-- `waitStep` in the pass-through branch: the pruned log is below the
limit, so the call is admitted at `now` immediately. -/
lemma waitStep_pass (r : RateLimiter) (now wake : Int)
    (h : ¬(((r.calls.filter fun c =>
      decide (now - c < r.timeFrame)).length : Int) ≥ r.limit)) :
    waitStep r now wake =
      ({ r with calls := (r.calls.filter fun c =>
          decide (now - c < r.timeFrame)) ++ [now] }, now) := by
  unfold waitStep
  rw [if_neg h]

/-- Main invariant of the serialized rate limiter: along any valid
schedule starting from a log that is the windowed filter of a monotone
history within the limit, every admission time is at least `prev`, and
for each admission the number of history-plus-earlier-admissions within
the trailing window of that admission is at most the limit. -/
lemma runRateLimiter_key (sched : List (Int × Int)) :
    ∀ (hist : List Int) (r : RateLimiter) (prev : Int),
    validSchedule r prev sched = true →
    1 ≤ r.limit → 0 < r.timeFrame →
    r.calls = hist.filter (fun c => decide (prev - c < r.timeFrame)) →
    (∀ c ∈ hist, c ≤ prev) →
    ((r.calls.length : Int) ≤ r.limit) →
    (∀ a ∈ (runRateLimiter r sched).2, prev ≤ a) ∧
    (∀ (k : Nat) (hk : k < (runRateLimiter r sched).2.length),
      (((hist ++ (runRateLimiter r sched).2.take (k + 1)).filter
        (fun c => decide ((runRateLimiter r sched).2[k] - c <
          r.timeFrame))).length : Int) ≤ r.limit) := by
  induction sched with
  | nil =>
    intro hist r prev _ _ _ _ _ _
    constructor
    · intro a ha
      exact absurd ha (List.not_mem_nil a)
    · intro k hk
      exact absurd hk (by simp [runRateLimiter])
  | cons step rest ih =>
    obtain ⟨now, wake⟩ := step
    intro hist r prev hvalid hlim hT hcalls hhist hlen
    simp only [validSchedule, Bool.and_eq_true, decide_eq_true_eq] at hvalid
    obtain ⟨⟨hv1, hv2⟩, hv3⟩ := hvalid
    have hc1 : r.calls.filter (fun c => decide (now - c < r.timeFrame)) =
        hist.filter (fun c => decide (now - c < r.timeFrame)) := by
      rw [hcalls]
      exact filter_window_mono hist r.timeFrame prev now hv1
    by_cases hcase : (((r.calls.filter fun c =>
        decide (now - c < r.timeFrame)).length : Int) ≥ r.limit)
    · -- sleeping branch
      rcases hq : r.calls.filter (fun c => decide (now - c < r.timeFrame))
        with _ | ⟨oldest, restc⟩
      · rw [hq] at hcase
        simp at hcase
        omega
      · have hold_pred : now - oldest < r.timeFrame := by
          have hmem : oldest ∈ r.calls.filter
              (fun c => decide (now - c < r.timeFrame)) := by
            rw [hq]
            exact List.mem_cons_self _ _
          exact of_decide_eq_true (List.mem_filter.mp hmem).2
        have hwait : 0 < r.timeFrame - (now - oldest) := by omega
        have hlim2 : ((oldest :: restc).length : Int) ≥ r.limit := by
          rw [← hq]
          exact hcase
        rw [hq] at hv2
        dsimp only at hv2
        have hwake : oldest + r.timeFrame ≤ wake := by
          rw [if_pos ⟨hlim2, hwait⟩] at hv2
          exact of_decide_eq_true hv2
        have hnw : now ≤ wake := by omega
        have hstep := waitStep_sleep r now wake oldest restc hq hlim2 hwait
        have hcalls2 : (oldest :: restc).filter
            (fun c => decide (wake - c < r.timeFrame)) =
            hist.filter (fun c => decide (wake - c < r.timeFrame)) := by
          rw [← hq, hc1]
          exact filter_window_mono hist r.timeFrame now wake hnw
        have hwin : (decide (wake - wake < r.timeFrame)) = true :=
          decide_eq_true (by omega)
        have hsing : ([wake].filter fun c =>
            decide (wake - c < r.timeFrame)) = [wake] := by
          simp [hwin, hT]
        have hr'calls : ({ r with calls := ((oldest :: restc).filter
            fun c => decide (wake - c < r.timeFrame)) ++ [wake] } :
              RateLimiter).calls =
            (hist ++ [wake]).filter
              (fun c => decide (wake - c < r.timeFrame)) := by
          dsimp only
          rw [hcalls2, List.filter_append, hsing]
        have hhist' : ∀ c ∈ hist ++ [wake], c ≤ wake := by
          intro c hc
          rcases List.mem_append.mp hc with h | h
          · exact le_trans (le_trans (hhist c h) hv1) hnw
          · rw [List.mem_singleton.mp h]
        have hexc : (decide (wake - oldest < r.timeFrame)) = false :=
          decide_eq_false (by omega)
        have hlen2 : ((({ r with calls := ((oldest :: restc).filter
            fun c => decide (wake - c < r.timeFrame)) ++ [wake] } :
              RateLimiter).calls.length : Int)) ≤ r.limit := by
          dsimp only
          have hfneg : ((oldest :: restc).filter fun c =>
              decide (wake - c < r.timeFrame)) =
              restc.filter fun c => decide (wake - c < r.timeFrame) := by
            simp [hexc]
          rw [List.length_append, hfneg, List.length_singleton]
          have h1 : (restc.filter
              (fun c => decide (wake - c < r.timeFrame))).length ≤
              restc.length := List.length_filter_le _ _
          have h2 : (oldest :: restc).length ≤ r.calls.length := by
            rw [← hq]
            exact List.length_filter_le _ _
          rw [List.length_cons] at h2
          omega
        rw [hstep] at hv3
        dsimp only at hv3
        have IH := ih (hist ++ [wake])
          { r with calls := ((oldest :: restc).filter
              fun c => decide (wake - c < r.timeFrame)) ++ [wake] }
          wake hv3 hlim hT hr'calls hhist' hlen2
        dsimp only at IH
        have hrun : runRateLimiter r ((now, wake) :: rest) =
            ((runRateLimiter { r with calls := ((oldest :: restc).filter
              fun c => decide (wake - c < r.timeFrame)) ++ [wake] } rest).1,
             wake :: (runRateLimiter { r with calls :=
              ((oldest :: restc).filter
                fun c => decide (wake - c < r.timeFrame)) ++ [wake] }
                rest).2) := by
          simp only [runRateLimiter, hstep]
        rw [hrun]
        dsimp only
        constructor
        · intro a ha
          rcases List.mem_cons.mp ha with rfl | ha
          · omega
          · have := IH.1 a ha
            omega
        · intro k hk
          cases k with
          | zero =>
            rw [List.take_succ_cons, List.take_zero, List.getElem_cons_zero]
            have : ((hist ++ [wake]).filter
                (fun c => decide (wake - c < r.timeFrame))).length =
                (((oldest :: restc).filter
                  fun c => decide (wake - c < r.timeFrame)) ++
                  [wake]).length := by
              rw [← hr'calls]
            rw [this]
            exact hlen2
          | succ j =>
            have hj : j < (runRateLimiter { r with calls :=
                ((oldest :: restc).filter
                  fun c => decide (wake - c < r.timeFrame)) ++ [wake] }
                rest).2.length := by
              rw [List.length_cons] at hk
              omega
            have hIH2 := IH.2 j hj
            simp only [List.take_succ_cons, List.getElem_cons_succ]
            rw [List.append_cons hist wake _]
            exact hIH2
    · -- pass-through branch
      have hstep := waitStep_pass r now wake hcase
      have hwin : (decide (now - now < r.timeFrame)) = true :=
        decide_eq_true (by omega)
      have hsing : ([now].filter fun c =>
          decide (now - c < r.timeFrame)) = [now] := by
        simp [hwin, hT]
      have hr'calls : ({ r with calls := (r.calls.filter fun c =>
          decide (now - c < r.timeFrame)) ++ [now] } :
            RateLimiter).calls =
          (hist ++ [now]).filter
            (fun c => decide (now - c < r.timeFrame)) := by
        dsimp only
        rw [hc1, List.filter_append, hsing]
      have hhist' : ∀ c ∈ hist ++ [now], c ≤ now := by
        intro c hc
        rcases List.mem_append.mp hc with h | h
        · exact le_trans (hhist c h) hv1
        · rw [List.mem_singleton.mp h]
      have hlen2 : ((({ r with calls := (r.calls.filter fun c =>
          decide (now - c < r.timeFrame)) ++ [now] } :
            RateLimiter).calls.length : Int)) ≤ r.limit := by
        dsimp only
        rw [List.length_append, List.length_singleton]
        push_neg at hcase
        omega
      rw [hstep] at hv3
      dsimp only at hv3
      have IH := ih (hist ++ [now])
        { r with calls := (r.calls.filter fun c =>
            decide (now - c < r.timeFrame)) ++ [now] }
        now hv3 hlim hT hr'calls hhist' hlen2
      dsimp only at IH
      have hrun : runRateLimiter r ((now, wake) :: rest) =
          ((runRateLimiter { r with calls := (r.calls.filter fun c =>
            decide (now - c < r.timeFrame)) ++ [now] } rest).1,
           now :: (runRateLimiter { r with calls :=
            (r.calls.filter fun c =>
              decide (now - c < r.timeFrame)) ++ [now] } rest).2) := by
        simp only [runRateLimiter, hstep]
      rw [hrun]
      dsimp only
      constructor
      · intro a ha
        rcases List.mem_cons.mp ha with rfl | ha
        · exact hv1
        · have := IH.1 a ha
          omega
      · intro k hk
        cases k with
        | zero =>
          rw [List.take_succ_cons, List.take_zero, List.getElem_cons_zero]
          have : ((hist ++ [now]).filter
              (fun c => decide (now - c < r.timeFrame))).length =
              ((r.calls.filter fun c =>
                decide (now - c < r.timeFrame)) ++ [now]).length := by
            rw [← hr'calls]
          rw [this]
          exact hlen2
        | succ j =>
          have hj : j < (runRateLimiter { r with calls :=
              (r.calls.filter fun c =>
                decide (now - c < r.timeFrame)) ++ [now] }
              rest).2.length := by
            rw [List.length_cons] at hk
            omega
          have hIH2 := IH.2 j hj
          simp only [List.take_succ_cons, List.getElem_cons_succ]
          rw [List.append_cons hist now _]
          exact hIH2

/-- From the per-admission trailing-window bound to the sliding-window
bound: if for every element the prefix up to and including it holds at
most `limit` entries within its trailing window, then every window
`[t, t + T)` holds at most `limit` elements. -/
lemma window_count_le (T limit : Int) (A : List Int)
    (hT : 0 < T) (hlim : 1 ≤ limit)
    (hP : ∀ (k : Nat) (hk : k < A.length),
      (((A.take (k + 1)).filter
        (fun c => decide (A[k] - c < T))).length : Int) ≤ limit) :
    ∀ t : Int, ((A.filter
      (fun a => decide (t ≤ a ∧ a < t + T))).length : Int) ≤ limit := by
  revert hP
  induction A using List.reverseRecOn with
  | nil =>
    intro _ t
    simp only [List.filter_nil, List.length_nil, Int.natCast_zero]
    omega
  | append_singleton B x ihB =>
    intro hP t
    have hPB : ∀ (k : Nat) (hk : k < B.length),
        (((B.take (k + 1)).filter
          (fun c => decide (B[k] - c < T))).length : Int) ≤ limit := by
      intro k hk
      have h := hP k (by rw [List.length_append, List.length_singleton]; omega)
      rw [List.take_append_of_le_length (by omega),
        List.getElem_append_left hk] at h
      exact h
    rw [List.filter_append]
    by_cases hx : t ≤ x ∧ x < t + T
    · have hxd : (decide (t ≤ x ∧ x < t + T)) = true := decide_eq_true hx
      have hxf : ([x].filter fun a => decide (t ≤ a ∧ a < t + T)) = [x] := by
        simp [hx]
      rw [hxf, List.length_append, List.length_singleton]
      have hmono : (B.filter (fun a => decide (t ≤ a ∧ a < t + T))).length ≤
          (B.filter (fun c => decide (x - c < T))).length := by
        rw [← List.countP_eq_length_filter, ← List.countP_eq_length_filter]
        apply List.countP_mono_left
        intro b _ hb
        have hbw := of_decide_eq_true hb
        exact decide_eq_true (by omega)
      have hlast := hP B.length
        (by rw [List.length_append, List.length_singleton]; omega)
      rw [List.take_of_length_le (by simp)] at hlast
      simp only [List.getElem_concat_length] at hlast
      rw [List.filter_append] at hlast
      have hxself : ([x].filter fun c => decide (x - c < T)) = [x] := by
        simp [hT]
      rw [hxself, List.length_append, List.length_singleton] at hlast
      omega
    · have hxd : (decide (t ≤ x ∧ x < t + T)) = false := decide_eq_false hx
      have hxf : ([x].filter fun a => decide (t ≤ a ∧ a < t + T)) = [] := by
        simp [hx]
      rw [hxf, List.append_nil]
      exact ihB hPB t

/-- **C5.**  In every serialized execution of `RateLimiter.Wait` (the
mutex is held across the whole call, sleep included, so every concurrent
execution is one of these serialized schedules) from a fresh limiter with
`limit ≥ 1` and a positive window, any sliding window `[t, t + timeFrame)`
contains at most `limit` admitted calls — no over-admission, under any
valid scheduler behaviour. -/
theorem rate_limiter_window_bound (limit timeFrame t0 t : Int)
    (sched : List (Int × Int))
    (hlim : 1 ≤ limit) (hT : 0 < timeFrame)
    (hvalid : validSchedule (NewRateLimiter limit timeFrame) t0 sched =
      true) :
    (((runRateLimiter (NewRateLimiter limit timeFrame) sched).2.filter
      (fun a => decide (t ≤ a ∧ a < t + timeFrame))).length : Int) ≤
      limit := by
  have key := runRateLimiter_key sched [] (NewRateLimiter limit timeFrame)
    t0 hvalid hlim hT (by simp [NewRateLimiter])
    (by intro c hc; exact absurd hc (List.not_mem_nil c))
    (by simp [NewRateLimiter]; omega)
  have hP := key.2
  simp only [List.nil_append, NewRateLimiter] at hP ⊢
  exact window_count_le timeFrame limit _ hT hlim hP t

/-- Witness for `rate_limiter_window_bound`: limit 1, window 1, two calls
admitted at times 0 and 1; the window starting at 0 holds one call. -/
theorem rate_limiter_window_bound_witness :
    (((runRateLimiter (NewRateLimiter 1 1) [(0, 0), (1, 2)]).2.filter
      (fun a => decide (0 ≤ a ∧ a < 0 + 1))).length : Int) ≤ 1 :=
  rate_limiter_window_bound 1 1 0 0 [(0, 0), (1, 2)] (by decide) (by decide)
    (by decide)

end KoordVegref
